import Mathlib

/-!
# Verification of the sartwc IPC server and workspace registry

Shallow embedding of the compositor's control plane: the percent codec,
connection line framing and command dispatcher from `src/ipc.c`, and the
workspace registry (init / add / rename / remove / switch / adjacency
search / persistence) from `workspaces.c`.

C strings are modelled as `List Nat` of byte values (NUL-free where the C
code holds a C string, stated as hypotheses where it matters).  External
collaborators (scene graph, cosmic/ext workspace protocol handles, focus,
OSD rendering, cursor) perform no registry mutation and are modelled as
no-ops; their invocation points are noted in comments.
-/

namespace Sartwc

/-! ## Byte-string helpers -/

/-- ASCII bytes of a Lean string literal (used only for ASCII literals). -/
def bs (s : String) : List Nat := s.toList.map Char.toNat

/-- C `tolower` in the default locale, on a byte. -/
def c_tolower (b : Nat) : Nat := if 65 ≤ b ∧ b ≤ 90 then b + 32 else b

/-- C `isspace` in the default locale: space, \t, \n, \v, \f, \r. -/
def c_isspace (b : Nat) : Bool := b == 32 || (9 ≤ b && b ≤ 13)

/-- `strcasecmp(a, b) == 0`: byte strings equal up to ASCII case. -/
def ci_eq (a b : List Nat) : Bool := a.map c_tolower == b.map c_tolower

/-- `strncasecmp(line, cmd, strlen(cmd)) == 0` for a NUL-free `line`:
`line` is at least as long as `cmd` and its first `cmd.length` bytes match
`cmd` up to ASCII case. -/
def ci_begins (cmd line : List Nat) : Bool :=
  decide (cmd.length ≤ line.length) &&
    ((line.take cmd.length).map c_tolower == cmd.map c_tolower)

/-- A C string is empty when its first byte is the NUL terminator
(an empty list models the empty string). -/
def c_str_isEmpty (s : List Nat) : Bool := s.headD 0 == 0

/-! ## Percent codec (`src/ipc.c`: `ipc_pct_is_unreserved`,
`ipc_hex_nibble`, `ipc_pct_decode_inplace`, `buf_add_pct_encoded`) -/

/-- `ipc_pct_is_unreserved`: `[A-Za-z0-9-_.~]`. -/
def ipc_pct_is_unreserved (c : Nat) : Bool :=
  (65 ≤ c && c ≤ 90) || (97 ≤ c && c ≤ 122) || (48 ≤ c && c ≤ 57)
    || c == 45 || c == 95 || c == 46 || c == 126

/-- `ipc_hex_nibble`: value of a hex digit, `-1` if not a hex digit. -/
def ipc_hex_nibble (c : Nat) : Int :=
  if 48 ≤ c ∧ c ≤ 57 then (c : Int) - 48
  else if 97 ≤ c ∧ c ≤ 102 then 10 + ((c : Int) - 97)
  else if 65 ≤ c ∧ c ≤ 70 then 10 + ((c : Int) - 65)
  else -1

/-- `ipc_pct_decode_inplace` on a NUL-free byte string: literal bytes pass
through; `%` must be followed by two hex digits (truncated or invalid
escapes fail the whole decode, `none`). -/
def ipc_pct_decode : List Nat → Option (List Nat)
  | [] => some []
  | 37 :: h :: l :: rest =>
    if ipc_hex_nibble h < 0 ∨ ipc_hex_nibble l < 0 then none
    else
      (ipc_pct_decode rest).map
        ((((ipc_hex_nibble h).toNat <<< 4) ||| (ipc_hex_nibble l).toNat) :: ·)
  | 37 :: _ => none
  | b :: rest => (ipc_pct_decode rest).map (b :: ·)

/-- Upper-case hex digit byte of a nibble value, as printed by `%02X`. -/
def hexDigitUpper (n : Nat) : Nat := if n < 10 then 48 + n else 55 + n

/-- `buf_add_pct_encoded`: unreserved bytes verbatim, every other byte as
`%XX` with two upper-case hex digits. -/
def buf_add_pct_encoded : List Nat → List Nat
  | [] => []
  | b :: rest =>
    (if ipc_pct_is_unreserved b then [b]
     else [37, hexDigitUpper (b / 16), hexDigitUpper (b % 16)])
      ++ buf_add_pct_encoded rest

/-! ### Percent codec lemmas -/

theorem nib_hexDigitUpper : ∀ k, k < 16 → ipc_hex_nibble (hexDigitUpper k) = (k : Int) := by
  decide

theorem shiftLeft_or_eq : ∀ x, x < 16 → ∀ y, y < 16 → ((x <<< 4) ||| y) = 16 * x + y := by
  decide

theorem unreserved_ne_pct : ∀ b, ipc_pct_is_unreserved b = true → b ≠ 37 := by
  intro b hb h
  subst h
  simp [ipc_pct_is_unreserved] at hb

theorem ipc_pct_decode_cons_of_ne (b : Nat) (t : List Nat) (h : ¬b = 37) :
    ipc_pct_decode (b :: t) = (ipc_pct_decode t).map (b :: ·) := by
  match t, b with
  | [], b => simp [ipc_pct_decode, h]
  | [x], b => simp [ipc_pct_decode, h]
  | x :: y :: ts, b => simp [ipc_pct_decode, h]

theorem ipc_pct_decode_escape (h l : Nat) (t : List Nat)
    (hh : 0 ≤ ipc_hex_nibble h) (hl : 0 ≤ ipc_hex_nibble l) :
    ipc_pct_decode (37 :: h :: l :: t)
      = (ipc_pct_decode t).map
          ((((ipc_hex_nibble h).toNat <<< 4) ||| (ipc_hex_nibble l).toNat) :: ·) := by
  rw [ipc_pct_decode, if_neg (by push_neg; exact ⟨hh, hl⟩)]

/-- Decoding one encoded byte prepends that byte. -/
theorem decode_encoded_byte (b : Nat) (hb : b < 256) (t : List Nat) :
    ipc_pct_decode
      ((if ipc_pct_is_unreserved b then [b]
        else [37, hexDigitUpper (b / 16), hexDigitUpper (b % 16)]) ++ t)
      = (ipc_pct_decode t).map (b :: ·) := by
  by_cases hu : ipc_pct_is_unreserved b = true
  · rw [if_pos hu, List.singleton_append,
      ipc_pct_decode_cons_of_ne b t (unreserved_ne_pct b hu)]
  · have hhi : b / 16 < 16 := Nat.div_lt_of_lt_mul (by omega)
    have hlo : b % 16 < 16 := Nat.mod_lt _ (by omega)
    rw [if_neg hu,
      show [37, hexDigitUpper (b / 16), hexDigitUpper (b % 16)] ++ t
        = 37 :: hexDigitUpper (b / 16) :: hexDigitUpper (b % 16) :: t from rfl,
      ipc_pct_decode_escape _ _ _
        (by rw [nib_hexDigitUpper _ hhi]; exact Int.natCast_nonneg _)
        (by rw [nib_hexDigitUpper _ hlo]; exact Int.natCast_nonneg _)]
    have hv : (((ipc_hex_nibble (hexDigitUpper (b / 16))).toNat <<< 4)
        ||| (ipc_hex_nibble (hexDigitUpper (b % 16))).toNat) = b := by
      rw [nib_hexDigitUpper _ hhi, nib_hexDigitUpper _ hlo, Int.toNat_natCast,
        Int.toNat_natCast, shiftLeft_or_eq _ hhi _ hlo]
      omega
    rw [hv]

/-- C2: percent-decoding inverts percent-encoding on every NUL-free byte
string, including control bytes, `%` and multi-byte UTF-8 sequences. -/
theorem pct_decode_encode (s : List Nat) (h : ∀ b ∈ s, 0 < b ∧ b < 256) :
    ipc_pct_decode (buf_add_pct_encoded s) = some s := by
  induction s with
  | nil => rfl
  | cons b rest ih =>
    have hb := h b (List.mem_cons_self b rest)
    have hrest : ∀ x ∈ rest, 0 < x ∧ x < 256 := fun x hx => h x (List.mem_cons_of_mem _ hx)
    rw [buf_add_pct_encoded, decode_encoded_byte b hb.2, ih hrest]
    rfl

/-- Witness for C2 at a concrete input holding a control byte (0x01), the
percent sign and the two UTF-8 bytes of "é" (0xC3 0xA9). -/
theorem pct_decode_encode_witness :
    ipc_pct_decode (buf_add_pct_encoded [1, 37, 195, 169]) = some [1, 37, 195, 169] :=
  pct_decode_encode [1, 37, 195, 169] (by decide)

/-! ## Persistence (`workspaces.c`: `workspace_state_persist`,
`workspace_config_list_load_persisted`)

The persisted file content is modelled as a byte list; the write path
(temp file + rename, directory creation) is I/O and its failure modes are
logged-only, so only the serialized content matters here. -/

/-- `workspace_state_persist` body: each workspace name followed by a
single `\n` (`fputs(name); fputc('\n')`).  Names are C strings, assumed
NUL-free. -/
def persist_content (names : List (List Nat)) : List Nat :=
  (names.map (fun nm => nm ++ [10])).flatten

/-- `getline` splitting: chunks up to and including each `\n`; a final
chunk without a terminator is returned as well (getline at EOF). -/
def getlines_aux : List Nat → List Nat → List (List Nat)
  | acc, [] => if acc = [] then [] else [acc.reverse]
  | acc, b :: rest =>
    if b = 10 then (acc.reverse ++ [10]) :: getlines_aux [] rest
    else getlines_aux (b :: acc) rest

def getlines (content : List Nat) : List (List Nat) := getlines_aux [] content

/-- The loader's per-line trailing strip: remove trailing `\n` and `\r`
bytes (`while (line[nread-1] == '\n' || line[nread-1] == '\r')`). -/
def chomp (l : List Nat) : List Nat :=
  (l.reverse.dropWhile (fun b => b == 10 || b == 13)).reverse

/-- `workspace_config_list_load_persisted` on the file content: split into
getline chunks, strip trailing `\n`/`\r`, skip empty lines, fail (`none`)
when no names result. -/
def workspace_config_list_load (content : List Nat) : Option (List (List Nat)) :=
  let names := ((getlines content).map chomp).filter (· ≠ [])
  if names = [] then none else some names

theorem getlines_aux_append (n : List Nat) (hn : 10 ∉ n) :
    ∀ acc rest, getlines_aux acc (n ++ 10 :: rest)
      = (acc.reverse ++ n ++ [10]) :: getlines_aux [] rest := by
  induction n with
  | nil => intro acc rest; simp [getlines_aux]
  | cons b l ih =>
    intro acc rest
    have hb : ¬b = 10 := fun h => hn (h ▸ List.mem_cons_self b l)
    have hl : 10 ∉ l := fun h => hn (List.mem_cons_of_mem _ h)
    rw [List.cons_append, getlines_aux, if_neg hb, ih hl (b :: acc) rest]
    simp

theorem chomp_name (n : List Nat) (hn : 10 ∉ n) (hcr : n.getLast? ≠ some 13) :
    chomp (n ++ [10]) = n := by
  unfold chomp
  rw [List.reverse_append, List.reverse_singleton, List.singleton_append,
    List.dropWhile_cons]
  rw [if_pos (by decide)]
  cases hrev : n.reverse with
  | nil =>
    have : n = [] := List.reverse_eq_nil_iff.mp hrev
    subst this
    rfl
  | cons x xs =>
    have hx : x ∈ n := List.mem_reverse.mp (hrev ▸ List.mem_cons_self x xs)
    have hx10 : ¬x = 10 := fun h => hn (h ▸ hx)
    have hx13 : ¬x = 13 := by
      intro h
      apply hcr
      rw [← List.head?_reverse, hrev, h]
      rfl
    rw [List.dropWhile_cons, if_neg (by simp [hx10, hx13]), ← hrev,
      List.reverse_reverse]

/-- C7 (amended): persisting and reloading reproduces the exact ordered
name list, for every non-empty registry whose names are non-empty,
NUL-free, contain no newline, and do not end in a carriage return. -/
theorem persist_load_roundtrip (names : List (List Nat))
    (hne : names ≠ [])
    (h : ∀ n ∈ names, n ≠ [] ∧ 10 ∉ n ∧ n.getLast? ≠ some 13) :
    workspace_config_list_load (persist_content names) = some names := by
  have key : ∀ ns : List (List Nat), (∀ n ∈ ns, n ≠ [] ∧ 10 ∉ n ∧ n.getLast? ≠ some 13) →
      ((getlines (persist_content ns)).map chomp).filter (· ≠ []) = ns := by
    intro ns hns
    induction ns with
    | nil => rfl
    | cons n rest ih =>
      have hn := hns n (List.mem_cons_self n rest)
      have hrest : ∀ m ∈ rest, m ≠ [] ∧ 10 ∉ m ∧ m.getLast? ≠ some 13 :=
        fun m hm => hns m (List.mem_cons_of_mem _ hm)
      have hsplit : persist_content (n :: rest) = n ++ 10 :: persist_content rest := by
        simp [persist_content]
      have hchunks : getlines (persist_content (n :: rest))
          = (n ++ [10]) :: getlines (persist_content rest) := by
        rw [hsplit]
        unfold getlines
        rw [getlines_aux_append n hn.2.1 [] (persist_content rest)]
        simp
      rw [hchunks, List.map_cons, chomp_name n hn.2.1 hn.2.2, List.filter_cons,
        if_pos (by simp [hn.1]), ih hrest]
  unfold workspace_config_list_load
  rw [key names h]
  simp [hne]

/-- C7 counterexample: the claim as frozen fails for the NUL-free,
newline-free, non-empty name "a\r" (bytes `[97, 13]`): the loader strips
the trailing carriage return, so reload yields `["a"]`, not `["a\r"]`. -/
theorem persist_load_cr_counterexample :
    workspace_config_list_load (persist_content [[97, 13]]) = some [[97]] ∧
      some [[97]] ≠ some [[97, 13]] := by
  constructor
  · rfl
  · decide

/-- Witness for the amended C7 at a concrete two-name registry. -/
theorem persist_load_roundtrip_witness :
    workspace_config_list_load (persist_content [[97], [119, 111, 114, 107]])
      = some [[97], [119, 111, 114, 107]] :=
  persist_load_roundtrip [[97], [119, 111, 114, 107]] (by decide) (by decide)

/-! ## Connection line framing (`src/ipc.c`: `handle_client_readable`)

Each read appends the received bytes to the connection's buffer (C-string
append; incoming bytes are NUL-free in the modelled scenarios), errors out
past the 64 KiB cap, then repeatedly extracts `\n`-terminated lines
(`strchr` loop), dispatching each to `handle_command` with the delimiter
removed, and retains a trailing partial line. -/

/-- The `strchr('\n')` extraction loop: returns the complete lines (with
the delimiter removed) and the retained trailing partial line. -/
def ipc_extract : List Nat → List (List Nat) × List Nat
  | [] => ([], [])
  | b :: rest =>
    if b = 10 then ([] :: (ipc_extract rest).1, (ipc_extract rest).2)
    else
      match ipc_extract rest with
      | ([], r) => ([], b :: r)
      | (l :: ls, r) => ((b :: l) :: ls, r)

/-- `IPC_MAX_RECV_BUF` = 64 * 1024. -/
def IPC_MAX_RECV_BUF : Nat := 64 * 1024

/-- One `handle_client_readable` pass after a successful `read`: append the
chunk, disconnect past the cap (`none`), otherwise dispatch the complete
lines and keep the remainder. -/
def handle_read (recv chunk : List Nat) : Option (List (List Nat) × List Nat) :=
  let buf := recv ++ chunk
  if IPC_MAX_RECV_BUF < buf.length then none
  else some (ipc_extract buf)

/-- C9: the extraction loop dispatches exactly the complete line-feed
delimited lines of the accumulated input (delimiter removed, no line
contains a line feed) and retains exactly the trailing partial line; in
particular feeding "li" then "st-workspaces\n" dispatches exactly one
command, "list-workspaces". -/
theorem framing_extracts_complete_lines :
    (∀ input : List Nat,
      ((ipc_extract input).1.map (· ++ [10])).flatten ++ (ipc_extract input).2 = input ∧
      (∀ l ∈ (ipc_extract input).1, 10 ∉ l) ∧ 10 ∉ (ipc_extract input).2) ∧
    (handle_read [] (bs "li") = some ([], bs "li") ∧
      handle_read (bs "li") (bs "st-workspaces\n") = some ([bs "list-workspaces"], [])) := by
  constructor
  · intro input
    induction input with
    | nil => exact ⟨rfl, by decide, by decide⟩
    | cons b rest ih =>
      obtain ⟨hjoin, hlines, hrem⟩ := ih
      rw [ipc_extract]
      by_cases hb : b = 10
      · subst hb
        rw [if_pos rfl]
        refine ⟨?_, ?_, ?_⟩
        · simpa using hjoin
        · intro l hl
          rcases List.mem_cons.mp hl with h | h
          · subst h; simp
          · exact hlines l h
        · exact hrem
      · rw [if_neg hb]
        rcases hp : ipc_extract rest with ⟨fst, snd⟩
        rw [hp] at hjoin hrem
        have hlines' : ∀ l ∈ fst, 10 ∉ l := by
          intro l hl
          exact hlines l (by rw [hp]; exact hl)
        cases fst with
        | nil =>
          refine ⟨?_, ?_, ?_⟩
          · show (([] : List (List Nat)).map (· ++ [10])).flatten ++ (b :: snd) = b :: rest
            simpa using hjoin
          · show ∀ l ∈ ([] : List (List Nat)), 10 ∉ l
            intro l hl
            exact absurd hl (List.not_mem_nil l)
          · show 10 ∉ b :: snd
            simp only [List.mem_cons]
            push_neg
            exact ⟨fun h => hb h.symm, by simpa using hrem⟩
        | cons l ls =>
          refine ⟨?_, ?_, ?_⟩
          · show (((b :: l) :: ls).map (· ++ [10])).flatten ++ snd = b :: rest
            simp only [List.map_cons, List.flatten_cons, List.cons_append, List.append_assoc]
            simp only [List.map_cons, List.flatten_cons, List.append_assoc] at hjoin
            simpa using hjoin
          · show ∀ m ∈ (b :: l) :: ls, 10 ∉ m
            intro m hm
            rcases List.mem_cons.mp hm with h | h
            · subst h
              have hl : 10 ∉ l := hlines' l (List.mem_cons_self l ls)
              simp only [List.mem_cons]
              push_neg
              exact ⟨fun hh => hb hh.symm, hl⟩
            · exact hlines' m (List.mem_cons_of_mem _ h)
          · show 10 ∉ snd
            simpa using hrem
  · constructor
    · rfl
    · rfl

/-- Witness for C9: the framing characterization applied at the concrete
accumulated input "a\nb". -/
theorem framing_extracts_complete_lines_witness :
    ((ipc_extract (bs "a\nb")).1.map (· ++ [10])).flatten
        ++ (ipc_extract (bs "a\nb")).2 = bs "a\nb" ∧
    10 ∉ (ipc_extract (bs "a\nb")).2 :=
  ⟨(framing_extracts_complete_lines.1 (bs "a\nb")).1,
   (framing_extracts_complete_lines.1 (bs "a\nb")).2.2⟩

/-! ## Workspace registry (`workspaces.c`)

Workspaces are heap nodes in C, identified by pointer; here each carries a
unique `id` standing for its address.  `current` / `last` store ids.
Views (windows) are the window-registry collaborator's state: each has an
assigned workspace and an omnipresent ("visible on all workspaces") flag.
Scene-graph enable/disable, cosmic/ext protocol `set_active`/`set_name`,
focus, OSD, cursor and top-layer updates are external side effects with no
registry state; their call sites are noted in comments. -/

structure Workspace where
  id : Nat
  name : List Nat
deriving DecidableEq

instance : Inhabited Workspace := ⟨⟨0, []⟩⟩

structure View where
  id : Nat
  workspace : Nat
  omnipresent : Bool
deriving DecidableEq

structure Server where
  all : List Workspace
  current : Nat
  last : Option Nat
  views : List View
  grabbed : Option Nat
  nextId : Nat
deriving DecidableEq

/-- Events pushed through `ipc_broadcast_event`; each carries the fields
the notifier computes at emission time. -/
inductive WsEvent where
  | workspaceChanged (current : Int)
  | workspaceListChanged (current : Int) (count : Nat)
deriving DecidableEq

/-- Externally visible registry side effects, in program order. -/
inductive Effect where
  | persist (names : List (List Nat))
  | event (e : WsEvent)
deriving DecidableEq

/-- `workspace_index` (ipc.c): 1-based position of a workspace in the
registry walk, 0 when absent. -/
def workspace_index (s : Server) (wid : Nat) : Int :=
  ((s.all.findIdx? (fun w => w.id = wid)).map (fun i => (i : Int) + 1)).getD 0

/-- Ordered name list, as serialized by `workspace_state_persist`. -/
def server_names (s : Server) : List (List Nat) := s.all.map (·.name)

/-- The `workspace-list-changed` event as built by
`ipc_notify_workspace_list_changed`. -/
def list_changed_event (s : Server) : WsEvent :=
  .workspaceListChanged (workspace_index s s.current) s.all.length

/-- `add_workspace`: append a fresh workspace at the registry tail
(`wl_list_append`).  Scene-tree creation and cosmic/ext handle creation
are external. -/
def add_workspace (s : Server) (name : List Nat) : Server :=
  { s with all := s.all ++ [⟨s.nextId, name⟩], nextId := s.nextId + 1 }

/-- `workspaces_init`: a fresh session always starts with the single
workspace "1" (byte 49) as current, then persists. -/
def workspaces_init : Server × List Effect :=
  ({ all := [⟨0, [49]⟩], current := 0, last := none, views := [], grabbed := none,
     nextId := 1 },
   [.persist [[49]]])

/-- `workspaces_switch_to`: no-op when the target is current; otherwise
migrate omnipresent views (and the grabbed view) to the target, set
`last := current`, `current := target`, and emit one `workspace-changed`
event.  Visual enable/disable, focus, OSD, cursor, top-layer and protocol
`set_active` calls are external. -/
def workspaces_switch_to (s : Server) (target : Workspace) (updateFocus : Bool) :
    Server × List Effect :=
  if target.id = s.current then (s, [])
  else
    let views1 := s.views.map (fun v =>
      if v.omnipresent then { v with workspace := target.id } else v)
    let s1 := { s with views := views1, last := some s.current, current := target.id }
    let s2 :=
      match s1.grabbed with
      | some gid =>
        { s1 with views := s1.views.map (fun v =>
            if v.id = gid then { v with workspace := target.id } else v) }
      | none => s1
    -- updateFocus gates only the external refocus call
    (s2, [.event (.workspaceChanged (workspace_index s2 s2.current))])

/-- `workspaces_add_named`: reject a NULL/empty name, else append, persist
and broadcast `workspace-list-changed`.  Returns (new state, success,
effects). -/
def workspaces_add_named (s : Server) (name : List Nat) :
    Server × Bool × List Effect :=
  if c_str_isEmpty name then (s, false, [])
  else
    let s1 := add_workspace s name
    (s1, true, [.persist (server_names s1), .event (list_changed_event s1)])

/-- `workspace_by_index`: walk the registry comparing a 1-based counter
with the requested index; also returns the 0-based position (standing for
the node's identity). -/
def workspace_by_index (s : Server) (index : Int) : Option (Nat × Workspace) :=
  if index < 1 then none
  else s.all.enum.find? (fun p => ((p.1 : Int) + 1) = index)

/-- `workspaces_rename_index`: reject empty name or bad index; rename,
persist and broadcast only when the value differs. -/
def workspaces_rename_index (s : Server) (index : Int) (name : List Nat) :
    Server × Bool × List Effect :=
  if c_str_isEmpty name then (s, false, [])
  else
    match workspace_by_index s index with
    | none => (s, false, [])
    | some (p, w) =>
      if w.name ≠ name then
        let s1 := { s with all := s.all.set p { w with name := name } }
        (s1, true, [.persist (server_names s1), .event (list_changed_event s1)])
      else (s, true, [])

/-- `workspaces_remove_index`: reject when the registry would become
empty (`count <= 1`) or the index is invalid; fallback is the list
successor (wrapping to the head when removing the tail); migrate the
removed workspace's views to the fallback; `Switch(fallback)` when the
removed one was current; repoint `last`; destroy; persist; broadcast. -/
def workspaces_remove_index (s : Server) (index : Int) :
    Server × Bool × List Effect :=
  if s.all.length ≤ 1 then (s, false, [])
  else
    match workspace_by_index s index with
    | none => (s, false, [])
    | some (p, w) =>
      let fp := if p + 1 < s.all.length then p + 1 else 0
      let fb := s.all.getD fp default
      if fp = p then (s, false, [])
      else
        let s1 := { s with views := s.views.map (fun v =>
          if v.workspace = w.id then { v with workspace := fb.id } else v) }
        let sw := if s1.current = w.id then workspaces_switch_to s1 fb true else (s1, [])
        let s2 := sw.1
        let s3 := if s2.last = some w.id then { s2 with last := some fb.id } else s2
        let s4 := { s3 with all := s3.all.eraseIdx p }
        (s4, true,
          sw.2 ++ [.persist (server_names s4), .event (list_changed_event s4)])

/-! ### C1: the registry never becomes empty -/

/-- The registry mutations reachable through the IPC mutation commands. -/
inductive WsOp where
  | add (name : List Nat)
  | rename (index : Int) (name : List Nat)
  | remove (index : Int)

def applyOp (s : Server) : WsOp → Server
  | .add name => (workspaces_add_named s name).1
  | .rename index name => (workspaces_rename_index s index name).1
  | .remove index => (workspaces_remove_index s index).1

def runOps (ops : List WsOp) : Server := ops.foldl applyOp workspaces_init.1

theorem length_eraseIdx_ge (l : List Workspace) (p : Nat) :
    l.length - 1 ≤ (l.eraseIdx p).length := by
  induction l generalizing p with
  | nil => simp
  | cons a t ih =>
    cases p with
    | zero => simp [List.eraseIdx]
    | succ q =>
      simp only [List.eraseIdx, List.length_cons]
      have := ih q
      omega

theorem switch_to_all_eq (s : Server) (target : Workspace) (u : Bool) :
    (workspaces_switch_to s target u).1.all = s.all := by
  unfold workspaces_switch_to
  split
  · rfl
  · cases hg : s.grabbed <;> simp [hg]

theorem all_of_last_repoint (s2 : Server) (wid fid : Nat) :
    (if s2.last = some wid then { s2 with last := some fid } else s2).all = s2.all := by
  split <;> rfl

theorem all_of_switch_branch (c : Prop) [Decidable c] (s1 : Server) (fb : Workspace) :
    ((if c then workspaces_switch_to s1 fb true else (s1, [])).1).all = s1.all := by
  split
  · exact switch_to_all_eq s1 fb true
  · rfl

theorem remove_index_length (s : Server) (index : Int) (h : 1 ≤ s.all.length) :
    1 ≤ (workspaces_remove_index s index).1.all.length := by
  unfold workspaces_remove_index
  split
  · exact h
  · rename_i hlen
    cases hw : workspace_by_index s index with
    | none => simp only [hw]; exact h
    | some pw =>
      obtain ⟨p, w⟩ := pw
      simp only [hw]
      dsimp only
      by_cases hfp : (if p + 1 < s.all.length then p + 1 else 0) = p
      · rw [if_pos hfp]
        exact h
      · rw [if_neg hfp]
        dsimp only
        rw [all_of_last_repoint, all_of_switch_branch]
        dsimp only
        have hge := length_eraseIdx_ge s.all p
        omega

theorem add_named_length (s : Server) (name : List Nat) (h : 1 ≤ s.all.length) :
    1 ≤ (workspaces_add_named s name).1.all.length := by
  unfold workspaces_add_named
  split
  · exact h
  · dsimp only [add_workspace]
    simp only [List.length_append]
    omega

theorem rename_index_length (s : Server) (index : Int) (name : List Nat)
    (h : 1 ≤ s.all.length) :
    1 ≤ (workspaces_rename_index s index name).1.all.length := by
  unfold workspaces_rename_index
  split
  · exact h
  · cases hw : workspace_by_index s index with
    | none => simp only [hw]; exact h
    | some pw =>
      obtain ⟨p, w⟩ := pw
      simp only [hw]
      split
      · dsimp only
        simpa [List.length_set] using h
      · exact h

theorem applyOp_length (s : Server) (op : WsOp) (h : 1 ≤ s.all.length) :
    1 ≤ (applyOp s op).all.length := by
  cases op with
  | add name => exact add_named_length s name h
  | rename index name => exact rename_index_length s index name h
  | remove index => exact remove_index_length s index h

theorem foldl_applyOp_length (ops : List WsOp) :
    ∀ s : Server, 1 ≤ s.all.length → 1 ≤ (ops.foldl applyOp s).all.length := by
  induction ops with
  | nil => intro s h; exact h
  | cons op rest ih =>
    intro s h
    exact ih (applyOp s op) (applyOp_length s op h)

/-- C1: starting from the initial one-workspace registry, every sequence
of add/rename/remove operations keeps the registry size at least 1; and
`workspaces_remove_index` on a size-1 registry always fails, leaving the
whole server state (registry, current, last) unchanged and producing no
persistence or broadcast effect. -/
theorem registry_never_empty :
    (∀ ops : List WsOp, 1 ≤ (runOps ops).all.length) ∧
    (∀ (s : Server) (index : Int), s.all.length = 1 →
      workspaces_remove_index s index = (s, false, [])) := by
  constructor
  · intro ops
    exact foldl_applyOp_length ops workspaces_init.1 (by decide)
  · intro s index h
    unfold workspaces_remove_index
    rw [if_pos (by omega)]

/-- Witness for C1: removing the only workspace of the fresh registry
(any index) fails and changes nothing. -/
theorem registry_never_empty_witness :
    workspaces_remove_index workspaces_init.1 1 = (workspaces_init.1, false, []) :=
  registry_never_empty.2 workspaces_init.1 1 (by decide)

/-! ### C3: the switch protocol -/

/-- C3: for every registry and member target distinct from current,
`Switch(target)` leaves the registry list unchanged, sets `current` to the
target, sets `last` to the previously current workspace and emits exactly
one `workspace-changed` event. -/
theorem switch_to_spec (s : Server) (target : Workspace) (u : Bool)
    (hmem : target ∈ s.all) (hne : target.id ≠ s.current) :
    (workspaces_switch_to s target u).1.current = target.id ∧
    (workspaces_switch_to s target u).1.last = some s.current ∧
    (workspaces_switch_to s target u).1.all = s.all ∧
    (workspaces_switch_to s target u).2
      = [Effect.event (.workspaceChanged
          (workspace_index (workspaces_switch_to s target u).1 target.id))] := by
  refine ⟨?_, ?_, switch_to_all_eq s target u, ?_⟩ <;>
    · unfold workspaces_switch_to
      rw [if_neg hne]
      cases hg : s.grabbed <;> simp [hg]

/-- Witness for C3, the spec's scenario: registry `[A,B,C]`, current `B`;
`Switch(C)` yields current = C, last = B and exactly one workspace-changed
event (with 1-based index 3). -/
theorem switch_to_spec_witness :
    let sABC : Server :=
      { all := [⟨0, bs "A"⟩, ⟨1, bs "B"⟩, ⟨2, bs "C"⟩], current := 1,
        last := none, views := [], grabbed := none, nextId := 3 }
    (workspaces_switch_to sABC ⟨2, bs "C"⟩ true).1.current = 2 ∧
    (workspaces_switch_to sABC ⟨2, bs "C"⟩ true).1.last = some 1 ∧
    (workspaces_switch_to sABC ⟨2, bs "C"⟩ true).2
      = [Effect.event (.workspaceChanged 3)] := by
  intro sABC
  obtain ⟨h1, h2, _, h4⟩ :=
    switch_to_spec sABC ⟨2, bs "C"⟩ true (by decide) (by decide)
  refine ⟨h1, h2, ?_⟩
  rw [h4]
  congr 1

/-! ### C5: occupied-neighbor search (`workspace_has_views`,
`get_adjacent_occupied`)

The `wl_list` walk is modelled on 0-based positions in the registry list,
with `none` standing for the sentinel head node.  The C loop is translated
step for step with an explicit fuel counter; `2 * n + 2` fuel is shown to
suffice, which is the loop-termination content of the claim. -/

/-- `workspace_has_views`: some view enumerated by the window registry
with the no-omnipresent criteria is assigned to this workspace. -/
def workspace_has_views (s : Server) (wid : Nat) : Bool :=
  s.views.any (fun v => !v.omnipresent && v.workspace == wid)

/-- One `link = link->next` / `link->prev` step on the circular list with
sentinel (`none`). -/
def adj_step (n : Nat) (reverse : Bool) : Option Nat → Option Nat
  | some i =>
    if reverse then (if i = 0 then none else some (i - 1))
    else (if i + 1 = n then none else some (i + 1))
  | none => if reverse then some (n - 1) else some 0

/-- The `while (true)` loop of `get_adjacent_occupied`, fuel-counted.
Returns `some result` when the loop breaks or returns within the fuel
(`result = some i`: occupied candidate found at position `i`;
`result = none`: the C function returns NULL), and `none` when the fuel
runs out before the loop finishes. -/
def get_adjacent_occupied_go (occ : Nat → Bool) (n start : Nat)
    (wrap reverse : Bool) : Nat → Option Nat → Bool → Option (Option Nat)
  | 0, _, _ => none
  | fuel + 1, link, hasWrapped =>
    match link with
    | none =>
      if !wrap then some none
      else if hasWrapped then some none
      else get_adjacent_occupied_go occ n start wrap reverse fuel
        (adj_step n reverse none) true
    | some i =>
      if i = start then some none
      else if i ≠ start && occ i then some (some i)
      else get_adjacent_occupied_go occ n start wrap reverse fuel
        (adj_step n reverse (some i)) hasWrapped

/-- `get_adjacent_occupied` with fuel `2n + 2` (shown sufficient below):
start from the anchor's neighbor in the chosen direction, not yet
wrapped. -/
def get_adjacent_occupied (occ : Nat → Bool) (n start : Nat)
    (wrap reverse : Bool) : Option (Option Nat) :=
  get_adjacent_occupied_go occ n start wrap reverse (2 * n + 2)
    (adj_step n reverse (some start)) false

/-- Occupancy of the workspace at a list position. -/
def server_occupied (s : Server) (j : Nat) : Bool :=
  match s.all[j]? with
  | some w => workspace_has_views s w.id
  | none => false

/-- `get_prev_occupied` / `get_next_occupied` over a server: anchor given
by its position in the registry list. -/
def get_adjacent_occupied_server (s : Server) (startPos : Nat)
    (wrap reverse : Bool) : Option (Option Nat) :=
  get_adjacent_occupied (server_occupied s) s.all.length startPos wrap reverse

/-- Invariant for the forward (`right-occupied`) walk. -/
def FwdGood (n start fuel : Nat) (link : Option Nat) (hw : Bool) : Prop :=
  (link = none ∧ hw = false ∧ start + 2 ≤ fuel) ∨
  (∃ i, link = some i ∧ hw = false ∧ start < i ∧ i < n ∧ n - i + start + 2 ≤ fuel) ∨
  (∃ i, link = some i ∧ hw = true ∧ i ≤ start ∧ start - i + 1 ≤ fuel)

/-- Invariant for the reverse (`left-occupied`) walk. -/
def RevGood (n start fuel : Nat) (link : Option Nat) (hw : Bool) : Prop :=
  (link = none ∧ hw = false ∧ n - 1 - start + 2 ≤ fuel) ∨
  (∃ i, link = some i ∧ hw = false ∧ i < start ∧ i + 1 + (n - 1 - start) + 2 ≤ fuel) ∨
  (∃ i, link = some i ∧ hw = true ∧ start ≤ i ∧ i < n ∧ i - start + 1 ≤ fuel)

theorem go_none_step (occ : Nat → Bool) (n start : Nat) (wrap reverse : Bool)
    (fuel : Nat) (hw : Bool) :
    get_adjacent_occupied_go occ n start wrap reverse (fuel + 1) none hw
      = if !wrap then some none
        else if hw then some none
        else get_adjacent_occupied_go occ n start wrap reverse fuel
          (adj_step n reverse none) true := by
  rw [get_adjacent_occupied_go]

theorem go_start_step (occ : Nat → Bool) (n start : Nat) (wrap reverse : Bool)
    (fuel : Nat) (hw : Bool) :
    get_adjacent_occupied_go occ n start wrap reverse (fuel + 1) (some start) hw
      = some none := by
  rw [get_adjacent_occupied_go]
  rw [if_pos rfl]

theorem go_some_step (occ : Nat → Bool) (n start : Nat) (wrap reverse : Bool)
    (fuel i : Nat) (hw : Bool) (hne : ¬i = start) :
    get_adjacent_occupied_go occ n start wrap reverse (fuel + 1) (some i) hw
      = if occ i = true then some (some i)
        else get_adjacent_occupied_go occ n start wrap reverse fuel
          (adj_step n reverse (some i)) hw := by
  rw [get_adjacent_occupied_go]
  rw [if_neg hne]
  by_cases ho : occ i = true
  · rw [if_pos (by simp [hne, ho]), if_pos ho]
  · rw [if_neg (by simp [ho]), if_neg ho]

theorem adj_go_fwd (occ : Nat → Bool) (n start : Nat) (wrap : Bool)
    (hs : start < n) :
    ∀ (fuel : Nat) (link : Option Nat) (hw : Bool),
      FwdGood n start fuel link hw →
      (∃ r, get_adjacent_occupied_go occ n start wrap false fuel link hw = some r) ∧
      ((∀ j, j < n → occ j = true → j = start) →
        get_adjacent_occupied_go occ n start wrap false fuel link hw = some none) := by
  intro fuel
  induction fuel with
  | zero =>
    intro link hw hg
    exfalso
    rcases hg with ⟨_, _, hf⟩ | ⟨i, _, _, _, _, hf⟩ | ⟨i, _, _, _, hf⟩ <;> omega
  | succ fuel ih =>
    intro link hw hg
    rcases hg with ⟨hl, hhw, hf⟩ | ⟨i, hl, hhw, hlt, hin, hf⟩ | ⟨i, hl, hhw, hle, hf⟩
    · subst hl; subst hhw
      rw [go_none_step]
      by_cases hwrap : wrap = true
      · subst hwrap
        rw [if_neg (by decide), if_neg Bool.false_ne_true]
        rw [show adj_step n false none = some 0 from rfl]
        exact ih (some 0) true (Or.inr (Or.inr ⟨0, rfl, rfl, Nat.zero_le _, by omega⟩))
      · have hw0 : wrap = false := by revert hwrap; cases wrap <;> simp
        subst hw0
        exact ⟨⟨none, by simp⟩, fun _ => by simp⟩
    · subst hl; subst hhw
      have hne : ¬i = start := by omega
      rw [go_some_step occ n start wrap false fuel i false hne]
      by_cases ho : occ i = true
      · rw [if_pos ho]
        exact ⟨⟨some i, rfl⟩, fun honly => absurd (honly i (by omega) ho) hne⟩
      · rw [if_neg ho]
        rw [show adj_step n false (some i)
            = if i + 1 = n then none else some (i + 1) from rfl]
        by_cases hn1 : i + 1 = n
        · rw [if_pos hn1]
          exact ih none false (Or.inl ⟨rfl, rfl, by omega⟩)
        · rw [if_neg hn1]
          exact ih (some (i + 1)) false
            (Or.inr (Or.inl ⟨i + 1, rfl, rfl, by omega, by omega, by omega⟩))
    · subst hl; subst hhw
      by_cases hieq : i = start
      · subst hieq
        rw [go_start_step]
        exact ⟨⟨none, rfl⟩, fun _ => rfl⟩
      · have hilt : i < start := by omega
        rw [go_some_step occ n start wrap false fuel i true hieq]
        by_cases ho : occ i = true
        · rw [if_pos ho]
          exact ⟨⟨some i, rfl⟩, fun honly => absurd (honly i (by omega) ho) hieq⟩
        · rw [if_neg ho]
          rw [show adj_step n false (some i)
              = if i + 1 = n then none else some (i + 1) from rfl]
          rw [if_neg (by omega)]
          exact ih (some (i + 1)) true
            (Or.inr (Or.inr ⟨i + 1, rfl, rfl, by omega, by omega⟩))

theorem adj_go_rev (occ : Nat → Bool) (n start : Nat) (wrap : Bool)
    (hs : start < n) :
    ∀ (fuel : Nat) (link : Option Nat) (hw : Bool),
      RevGood n start fuel link hw →
      (∃ r, get_adjacent_occupied_go occ n start wrap true fuel link hw = some r) ∧
      ((∀ j, j < n → occ j = true → j = start) →
        get_adjacent_occupied_go occ n start wrap true fuel link hw = some none) := by
  intro fuel
  induction fuel with
  | zero =>
    intro link hw hg
    exfalso
    rcases hg with ⟨_, _, hf⟩ | ⟨i, _, _, _, hf⟩ | ⟨i, _, _, _, _, hf⟩ <;> omega
  | succ fuel ih =>
    intro link hw hg
    rcases hg with ⟨hl, hhw, hf⟩ | ⟨i, hl, hhw, hlt, hf⟩ | ⟨i, hl, hhw, hge, hin, hf⟩
    · subst hl; subst hhw
      rw [go_none_step]
      by_cases hwrap : wrap = true
      · subst hwrap
        rw [if_neg (by decide), if_neg Bool.false_ne_true]
        rw [show adj_step n true none = some (n - 1) from rfl]
        exact ih (some (n - 1)) true
          (Or.inr (Or.inr ⟨n - 1, rfl, rfl, by omega, by omega, by omega⟩))
      · have hw0 : wrap = false := by revert hwrap; cases wrap <;> simp
        subst hw0
        exact ⟨⟨none, by simp⟩, fun _ => by simp⟩
    · subst hl; subst hhw
      have hne : ¬i = start := by omega
      rw [go_some_step occ n start wrap true fuel i false hne]
      by_cases ho : occ i = true
      · rw [if_pos ho]
        exact ⟨⟨some i, rfl⟩, fun honly => absurd (honly i (by omega) ho) hne⟩
      · rw [if_neg ho]
        rw [show adj_step n true (some i)
            = if i = 0 then none else some (i - 1) from rfl]
        by_cases hz : i = 0
        · rw [if_pos hz]
          exact ih none false (Or.inl ⟨rfl, rfl, by omega⟩)
        · rw [if_neg hz]
          exact ih (some (i - 1)) false
            (Or.inr (Or.inl ⟨i - 1, rfl, rfl, by omega, by omega⟩))
    · subst hl; subst hhw
      by_cases hieq : i = start
      · subst hieq
        rw [go_start_step]
        exact ⟨⟨none, rfl⟩, fun _ => rfl⟩
      · have higt : start < i := by omega
        rw [go_some_step occ n start wrap true fuel i true hieq]
        by_cases ho : occ i = true
        · rw [if_pos ho]
          exact ⟨⟨some i, rfl⟩, fun honly => absurd (honly i (by omega) ho) hieq⟩
        · rw [if_neg ho]
          rw [show adj_step n true (some i)
              = if i = 0 then none else some (i - 1) from rfl]
          rw [if_neg (by omega)]
          exact ih (some (i - 1)) true
            (Or.inr (Or.inr ⟨i - 1, rfl, rfl, by omega, by omega, by omega⟩))

/-- C5: the occupied-neighbor search always terminates within its fuel
budget (single-wrap rule), and over a registry where only the anchor's
workspace has an assigned non-omnipresent view it returns none — for both
wrap settings and both directions. -/
theorem adjacency_search_spec (s : Server) (startPos : Nat)
    (wrap reverse : Bool) (hs : startPos < s.all.length) :
    (∃ r, get_adjacent_occupied_server s startPos wrap reverse = some r) ∧
    ((∀ j, j < s.all.length → server_occupied s j = true → j = startPos) →
      get_adjacent_occupied_server s startPos wrap reverse = some none) := by
  unfold get_adjacent_occupied_server get_adjacent_occupied
  cases reverse with
  | false =>
    apply adj_go_fwd (server_occupied s) s.all.length startPos wrap hs
    rw [show adj_step s.all.length false (some startPos)
        = if startPos + 1 = s.all.length then none else some (startPos + 1) from rfl]
    by_cases h1 : startPos + 1 = s.all.length
    · rw [if_pos h1]
      exact Or.inl ⟨rfl, rfl, by omega⟩
    · rw [if_neg h1]
      exact Or.inr (Or.inl ⟨startPos + 1, rfl, rfl, by omega, by omega, by omega⟩)
  | true =>
    apply adj_go_rev (server_occupied s) s.all.length startPos wrap hs
    rw [show adj_step s.all.length true (some startPos)
        = if startPos = 0 then none else some (startPos - 1) from rfl]
    by_cases h0 : startPos = 0
    · rw [if_pos h0]
      exact Or.inl ⟨rfl, rfl, by omega⟩
    · rw [if_neg h0]
      exact Or.inr (Or.inl ⟨startPos - 1, rfl, rfl, by omega, by omega⟩)

/-- Witness for C5: a two-workspace registry with a single view on the
anchor workspace A; the right-occupied search with wrapping finds no
candidate. -/
theorem adjacency_search_spec_witness :
    get_adjacent_occupied_server
      { all := [⟨0, bs "A"⟩, ⟨1, bs "B"⟩], current := 0, last := none,
        views := [⟨7, 0, false⟩], grabbed := none, nextId := 2 }
      0 true false = some none :=
  (adjacency_search_spec _ 0 true false (by decide)).2 (by decide)

/-! ## Command dispatcher (`src/ipc.c`: `handle_command`) -/

/-- Modelled from the spec: `string_strip` (from common/string-helpers,
which is not among the provided sources) trims leading and trailing
whitespace from the line before dispatch ("parses a complete line into a
command + arguments"; blank lines are ignored). -/
def string_strip (s : List Nat) : List Nat :=
  ((s.dropWhile c_isspace).reverse.dropWhile c_isspace).reverse

/-- `strtok_r(line, " \t", ...)`: split on runs of spaces and tabs,
dropping empty fields. -/
def tokens_aux : List Nat → List Nat → List (List Nat)
  | acc, [] => if acc = [] then [] else [acc.reverse]
  | acc, b :: rest =>
    if b = 32 ∨ b = 9 then
      (if acc = [] then tokens_aux [] rest else acc.reverse :: tokens_aux [] rest)
    else tokens_aux (b :: acc) rest

def tokens (l : List Nat) : List (List Nat) := tokens_aux [] l

def c_isdigit (b : Nat) : Bool := 48 ≤ b && b ≤ 57

/-- Leading decimal digits value. -/
def c_atoi_digits (s : List Nat) : Nat :=
  (s.takeWhile c_isdigit).foldl (fun a d => a * 10 + (d - 48)) 0

/-- C `atoi`: skip leading whitespace, optional sign, then leading digits
(0 when there are none).  Overflow is undefined behaviour in C and is not
exercised by any claim; the model is exact. -/
def c_atoi (s : List Nat) : Int :=
  match s.dropWhile c_isspace with
  | 45 :: rest => -(c_atoi_digits rest : Int)
  | 43 :: rest => (c_atoi_digits rest : Int)
  | rest => (c_atoi_digits rest : Int)

/-- Key of a `key=value` token: the bytes before the first `=`
(`strchr(token, '=')`). -/
def kv_key (tok : List Nat) : List Nat := tok.takeWhile (fun b => b != 61)

/-- Value of a `key=value` token: the bytes after the first `=`. -/
def kv_value (tok : List Nat) : List Nat := (tok.dropWhile (fun b => b != 61)).drop 1

def kv_has_eq (tok : List Nat) : Bool := tok.any (fun b => b == 61)

/-- The argument loop of the three workspace commands: walk the remaining
tokens, skip those without `=`, a later `name=` / `index=` overwrites an
earlier one, `index` defaults to 0 (`workspace-add` reads only `name`,
`workspace-remove` only `index`; the unused component is simply ignored
at the call sites). -/
def parse_kv_args (toks : List (List Nat)) : Option (List Nat) × Int :=
  toks.foldl
    (fun st tok =>
      if kv_has_eq tok then
        if ci_eq (kv_key tok) (bs "name") then (some (kv_value tok), st.2)
        else if ci_eq (kv_key tok) (bs "index") then (st.1, c_atoi (kv_value tok))
        else st
      else st)
    (none, 0)

/-- Decimal rendering of a number, as `snprintf("%d")` produces for the
synthesized workspace name. -/
def decRepAux : Nat → Nat → List Nat → List Nat
  | 0, _, acc => acc
  | fuel + 1, n, acc =>
    if n < 10 then (48 + n) :: acc
    else decRepAux fuel (n / 10) ((48 + n % 10) :: acc)

def decimalBytes (n : Nat) : List Nat := decRepAux (n + 1) n []

/-- The commands distinguished by `handle_command`'s dispatch chain. -/
inductive Cmd where
  | empty | ping | subscribeEvents | listViews | listViewsJson
  | listWorkspaces | listWorkspacesJson | wsAdd | wsRename | wsRemove | action
deriving DecidableEq

/-- The dispatch chain of `handle_command` on the stripped line, in source
order: exact case-insensitive comparison (`strcasecmp`) of the whole line
for ping / subscribe-events / list-*; case-insensitive PREFIX comparison
(`strncasecmp(line, cmd, strlen(cmd))`) for the three workspace commands;
everything else is an action invocation. -/
def ipc_dispatch (line : List Nat) : Cmd :=
  if line = [] then .empty
  else if ci_eq line (bs "ping") then .ping
  else if ci_eq line (bs "subscribe-events") then .subscribeEvents
  else if ci_eq line (bs "list-views") then .listViews
  else if ci_eq line (bs "list-views-json") then .listViewsJson
  else if ci_eq line (bs "list-workspaces") then .listWorkspaces
  else if ci_eq line (bs "list-workspaces-json") then .listWorkspacesJson
  else if ci_begins (bs "workspace-add") line then .wsAdd
  else if ci_begins (bs "workspace-rename") line then .wsRename
  else if ci_begins (bs "workspace-remove") line then .wsRemove
  else .action

/-- What `handle_command` writes back on the command connection.
`silent` is the early return for blank lines (no bytes written); `msg`
are the literal replies; the `query*` constructors stand for the bulk
payloads built by the `handle_query_*` helpers (pure reads of server
state); `action` stands for delegation to the external action facility
(`action_create` / `actions_run`), which decides between OK, unknown
action and missing-argument errors. -/
inductive Reply where
  | silent
  | msg (s : List Nat)
  | queryViews | queryViewsJson | queryWorkspaces | queryWorkspacesJson
  | action (name : List Nat) (args : List (List Nat × List Nat))
deriving DecidableEq

/-- An IPC client: its server plus the subscribed-to-events flag. -/
structure Client where
  server : Server
  subscribed : Bool
deriving DecidableEq

/-- The `workspace-add` tail with an absent or empty name: synthesize
`decimal(count + 1)`. -/
def handle_ws_add_generated (cl : Client) : Client × Reply × List Effect :=
  let gen := decimalBytes (cl.server.all.length + 1)
  let r := workspaces_add_named cl.server gen
  if r.2.1 then ({ cl with server := r.1 }, .msg (bs "OK\n"), r.2.2)
  else ({ cl with server := r.1 }, .msg (bs "ERROR failed to add workspace\n"), r.2.2)

/-- `handle_command` (second ipc.c revision): strip, dispatch, execute.
Returns the updated client, the reply written to the command connection,
and the registry side effects (persistence + broadcasts) in order. -/
def handle_command (cl : Client) (line0 : List Nat) : Client × Reply × List Effect :=
  let line := string_strip line0
  match ipc_dispatch line with
  | .empty => (cl, .silent, [])
  | .ping => (cl, .msg (bs "OK\n"), [])
  | .subscribeEvents =>
    ({ cl with subscribed := true }, .msg (bs "OK subscribed-events\n"), [])
  | .listViews => (cl, .queryViews, [])
  | .listViewsJson => (cl, .queryViewsJson, [])
  | .listWorkspaces => (cl, .queryWorkspaces, [])
  | .listWorkspacesJson => (cl, .queryWorkspacesJson, [])
  | .wsAdd =>
    match (parse_kv_args ((tokens line).drop 1)).1 with
    | none => handle_ws_add_generated cl
    | some n =>
      if c_str_isEmpty n then handle_ws_add_generated cl
      else
        match ipc_pct_decode n with
        | none => (cl, .msg (bs "ERROR invalid percent-encoding in name\n"), [])
        | some decoded =>
          let r := workspaces_add_named cl.server decoded
          if r.2.1 then ({ cl with server := r.1 }, .msg (bs "OK\n"), r.2.2)
          else ({ cl with server := r.1 }, .msg (bs "ERROR failed to add workspace\n"), r.2.2)
  | .wsRename =>
    match (parse_kv_args ((tokens line).drop 1)).1 with
    | none => (cl, .msg (bs "ERROR usage: workspace-rename index=N name=...\n"), [])
    | some n =>
      if (parse_kv_args ((tokens line).drop 1)).2 < 1 ∨ c_str_isEmpty n then
        (cl, .msg (bs "ERROR usage: workspace-rename index=N name=...\n"), [])
      else
        match ipc_pct_decode n with
        | none => (cl, .msg (bs "ERROR invalid percent-encoding in name\n"), [])
        | some decoded =>
          let r := workspaces_rename_index cl.server
            (parse_kv_args ((tokens line).drop 1)).2 decoded
          if r.2.1 then ({ cl with server := r.1 }, .msg (bs "OK\n"), r.2.2)
          else ({ cl with server := r.1 }, .msg (bs "ERROR failed to rename workspace\n"), r.2.2)
  | .wsRemove =>
    if (parse_kv_args ((tokens line).drop 1)).2 < 1 then
      (cl, .msg (bs "ERROR usage: workspace-remove index=N\n"), [])
    else
      let r := workspaces_remove_index cl.server (parse_kv_args ((tokens line).drop 1)).2
      if r.2.1 then ({ cl with server := r.1 }, .msg (bs "OK\n"), r.2.2)
      else ({ cl with server := r.1 }, .msg (bs "ERROR failed to remove workspace\n"), r.2.2)
  | .action =>
    -- executed synchronously by the external action facility
    -- (action_create / action_arg_add_str / actions_run); the OK /
    -- unknown-action / missing-argument reply is decided there
    (cl, .action ((tokens line).headD [])
      (((tokens line).drop 1).filterMap (fun t =>
        if kv_has_eq t then some (kv_key t, kv_value t) else none)), [])

/-! ### C10: blank lines are ignored -/

theorem strip_all_space (line : List Nat) (h : ∀ b ∈ line, c_isspace b = true) :
    string_strip line = [] := by
  unfold string_strip
  have h1 : line.dropWhile c_isspace = [] := by
    rw [List.dropWhile_eq_nil_iff]
    exact fun x hx => h x hx
  rw [h1]
  rfl

/-- C10: a command line that is empty or all-whitespace produces no
response bytes (neither OK nor ERROR), changes no state (server and
subscription flag unchanged) and causes no persistence or broadcast; the
connection is left open (`handle_command` has no disconnect path — only
`handle_client_readable` destroys clients). -/
theorem blank_line_ignored (cl : Client) (line : List Nat)
    (h : ∀ b ∈ line, c_isspace b = true) :
    handle_command cl line = (cl, Reply.silent, []) := by
  unfold handle_command
  rw [strip_all_space line h]
  rfl

/-- Witness for C10 at the all-whitespace line " \t ". -/
theorem blank_line_ignored_witness :
    handle_command ⟨workspaces_init.1, false⟩ (bs " \t ")
      = (⟨workspaces_init.1, false⟩, Reply.silent, []) :=
  blank_line_ignored ⟨workspaces_init.1, false⟩ (bs " \t ") (by decide)

/-! ### C6: dispatch is by case-insensitive prefix, not by first token -/

theorem ci_begins_iff (cmd l : List Nat) :
    ci_begins cmd l = true ↔
      cmd.length ≤ l.length ∧ (l.take cmd.length).map c_tolower = cmd.map c_tolower := by
  simp [ci_begins]

theorem ci_eq_iff (a b : List Nat) :
    ci_eq a b = true ↔ a.map c_tolower = b.map c_tolower := by
  simp [ci_eq]

/-- A line with a case-insensitive prefix `cmd` determines the lowered
form of any full-line case-insensitive match. -/
theorem ci_begins_and_eq (cmd e l : List Nat)
    (hp : ci_begins cmd l = true) (he : ci_eq l e = true) :
    cmd.map c_tolower = (e.map c_tolower).take cmd.length ∧ cmd.length ≤ e.length := by
  obtain ⟨hk, hpre⟩ := (ci_begins_iff cmd l).mp hp
  have hll := (ci_eq_iff l e).mp he
  have hlen : l.length = e.length := by
    have := congrArg List.length hll
    simpa using this
  refine ⟨?_, by omega⟩
  rw [← hll, ← List.map_take, hpre]

/-- Two case-insensitive prefixes of one line agree on the shorter one. -/
theorem ci_begins_and_begins (cmd1 cmd2 l : List Nat)
    (h1 : ci_begins cmd1 l = true) (h2 : ci_begins cmd2 l = true)
    (hle : cmd1.length ≤ cmd2.length) :
    cmd1.map c_tolower = (cmd2.map c_tolower).take cmd1.length := by
  obtain ⟨hk1, hp1⟩ := (ci_begins_iff cmd1 l).mp h1
  obtain ⟨hk2, hp2⟩ := (ci_begins_iff cmd2 l).mp h2
  rw [← hp1, ← hp2, ← List.map_take, List.take_take, Nat.min_eq_left hle]

theorem ci_eq_false_of_begins (cmd e l : List Nat)
    (hp : ci_begins cmd l = true)
    (hclash : ¬(cmd.map c_tolower = (e.map c_tolower).take cmd.length ∧
      cmd.length ≤ e.length)) :
    ¬ci_eq l e = true :=
  fun he => hclash (ci_begins_and_eq cmd e l hp he)

theorem ci_begins_ne_empty (cmd l : List Nat) (hp : ci_begins cmd l = true)
    (hc : cmd ≠ []) : ¬l = [] := by
  obtain ⟨hk, _⟩ := (ci_begins_iff cmd l).mp hp
  intro h
  subst h
  apply hc
  apply List.length_eq_zero.mp
  simp only [List.length_nil, Nat.le_zero] at hk
  exact hk

/-- C6 counterexample: the line "workspace-addx" is dispatched as
`workspace-add` by the prefix comparison although its first
whitespace-delimited token is not (case-insensitively) equal to
"workspace-add" — refuting dispatch-by-first-token as frozen. -/
theorem dispatch_first_token_counterexample :
    ipc_dispatch (string_strip (bs "workspace-addx")) = Cmd.wsAdd ∧
    ci_eq ((tokens (string_strip (bs "workspace-addx"))).headD [])
      (bs "workspace-add") = false := by
  decide

set_option maxHeartbeats 1600000 in
theorem dispatch_prefix_semantics_core (l : List Nat) :
    (ipc_dispatch l = Cmd.wsAdd ↔ ci_begins (bs "workspace-add") l = true) ∧
    (ipc_dispatch l = Cmd.wsRename ↔ ci_begins (bs "workspace-rename") l = true) ∧
    (ipc_dispatch l = Cmd.wsRemove ↔ ci_begins (bs "workspace-remove") l = true) ∧
    (ipc_dispatch l = Cmd.action ↔
      (¬l = [] ∧
        ¬ci_eq l (bs "ping") = true ∧
        ¬ci_eq l (bs "subscribe-events") = true ∧
        ¬ci_eq l (bs "list-views") = true ∧
        ¬ci_eq l (bs "list-views-json") = true ∧
        ¬ci_eq l (bs "list-workspaces") = true ∧
        ¬ci_eq l (bs "list-workspaces-json") = true ∧
        ¬ci_begins (bs "workspace-add") l = true ∧
        ¬ci_begins (bs "workspace-rename") l = true ∧
        ¬ci_begins (bs "workspace-remove") l = true)) := by
  have haddE : ci_begins (bs "workspace-add") l = true →
      ipc_dispatch l = Cmd.wsAdd := by
    intro hp
    have hne := ci_begins_ne_empty _ l hp (by decide)
    unfold ipc_dispatch
    rw [if_neg hne,
      if_neg (ci_eq_false_of_begins _ _ l hp (by decide)),
      if_neg (ci_eq_false_of_begins _ _ l hp (by decide)),
      if_neg (ci_eq_false_of_begins _ _ l hp (by decide)),
      if_neg (ci_eq_false_of_begins _ _ l hp (by decide)),
      if_neg (ci_eq_false_of_begins _ _ l hp (by decide)),
      if_neg (ci_eq_false_of_begins _ _ l hp (by decide)),
      if_pos hp]
  have hrenE : ci_begins (bs "workspace-rename") l = true →
      ipc_dispatch l = Cmd.wsRename := by
    intro hp
    have hne := ci_begins_ne_empty _ l hp (by decide)
    have hnadd : ¬ci_begins (bs "workspace-add") l = true := by
      intro hp2
      have := ci_begins_and_begins _ _ l hp2 hp (by decide)
      revert this
      decide
    unfold ipc_dispatch
    rw [if_neg hne,
      if_neg (ci_eq_false_of_begins _ _ l hp (by decide)),
      if_neg (ci_eq_false_of_begins _ _ l hp (by decide)),
      if_neg (ci_eq_false_of_begins _ _ l hp (by decide)),
      if_neg (ci_eq_false_of_begins _ _ l hp (by decide)),
      if_neg (ci_eq_false_of_begins _ _ l hp (by decide)),
      if_neg (ci_eq_false_of_begins _ _ l hp (by decide)),
      if_neg hnadd, if_pos hp]
  have hremE : ci_begins (bs "workspace-remove") l = true →
      ipc_dispatch l = Cmd.wsRemove := by
    intro hp
    have hne := ci_begins_ne_empty _ l hp (by decide)
    have hnadd : ¬ci_begins (bs "workspace-add") l = true := by
      intro hp2
      have := ci_begins_and_begins _ _ l hp2 hp (by decide)
      revert this
      decide
    have hnren : ¬ci_begins (bs "workspace-rename") l = true := by
      intro hp2
      have := ci_begins_and_begins _ _ l hp2 hp (by decide)
      revert this
      decide
    unfold ipc_dispatch
    rw [if_neg hne,
      if_neg (ci_eq_false_of_begins _ _ l hp (by decide)),
      if_neg (ci_eq_false_of_begins _ _ l hp (by decide)),
      if_neg (ci_eq_false_of_begins _ _ l hp (by decide)),
      if_neg (ci_eq_false_of_begins _ _ l hp (by decide)),
      if_neg (ci_eq_false_of_begins _ _ l hp (by decide)),
      if_neg (ci_eq_false_of_begins _ _ l hp (by decide)),
      if_neg hnadd, if_neg hnren, if_pos hp]
  refine ⟨⟨?_, haddE⟩, ⟨?_, hrenE⟩, ⟨?_, hremE⟩, ⟨?_, ?_⟩⟩
  · intro h
    unfold ipc_dispatch at h
    split_ifs at h <;> first | exact Cmd.noConfusion h | assumption
  · intro h
    unfold ipc_dispatch at h
    split_ifs at h <;> first | exact Cmd.noConfusion h | assumption
  · intro h
    unfold ipc_dispatch at h
    split_ifs at h <;> first | exact Cmd.noConfusion h | assumption
  · intro h
    unfold ipc_dispatch at h
    split_ifs at h <;>
      first
      | exact Cmd.noConfusion h
      | exact ⟨by assumption, by assumption, by assumption, by assumption,
          by assumption, by assumption, by assumption, by assumption,
          by assumption, by assumption⟩
  · rintro ⟨h1, h2, h3, h4, h5, h6, h7, h8, h9, h10⟩
    unfold ipc_dispatch
    rw [if_neg h1, if_neg h2, if_neg h3, if_neg h4, if_neg h5, if_neg h6,
      if_neg h7, if_neg h8, if_neg h9, if_neg h10]

/-- C6 (amended): a line is dispatched as workspace-add / -rename /
-remove exactly when the stripped line BEGINS with that command name,
case-insensitively (`strncasecmp` prefix match, not first-token
equality); a stripped line matching neither the exact commands (ping,
subscribe-events, list-*) nor the three prefixes, and not blank, is
treated as an action invocation. -/
theorem dispatch_prefix_semantics (line : List Nat) :
    (ipc_dispatch (string_strip line) = Cmd.wsAdd ↔
      ci_begins (bs "workspace-add") (string_strip line) = true) ∧
    (ipc_dispatch (string_strip line) = Cmd.wsRename ↔
      ci_begins (bs "workspace-rename") (string_strip line) = true) ∧
    (ipc_dispatch (string_strip line) = Cmd.wsRemove ↔
      ci_begins (bs "workspace-remove") (string_strip line) = true) ∧
    (ipc_dispatch (string_strip line) = Cmd.action ↔
      (¬string_strip line = [] ∧
        ¬ci_eq (string_strip line) (bs "ping") = true ∧
        ¬ci_eq (string_strip line) (bs "subscribe-events") = true ∧
        ¬ci_eq (string_strip line) (bs "list-views") = true ∧
        ¬ci_eq (string_strip line) (bs "list-views-json") = true ∧
        ¬ci_eq (string_strip line) (bs "list-workspaces") = true ∧
        ¬ci_eq (string_strip line) (bs "list-workspaces-json") = true ∧
        ¬ci_begins (bs "workspace-add") (string_strip line) = true ∧
        ¬ci_begins (bs "workspace-rename") (string_strip line) = true ∧
        ¬ci_begins (bs "workspace-remove") (string_strip line) = true)) :=
  dispatch_prefix_semantics_core (string_strip line)

/-- Witness for the amended C6: "workspace-remove index=1" is dispatched
as workspace-remove via the prefix match. -/
theorem dispatch_prefix_semantics_witness :
    ipc_dispatch (string_strip (bs "workspace-remove index=1")) = Cmd.wsRemove :=
  (dispatch_prefix_semantics (bs "workspace-remove index=1")).2.2.1.mpr (by decide)

/-! ### C4: invalid percent-escapes fail the whole command -/

theorem decRepAux_head :
    ∀ (fuel n : Nat) (acc : List Nat), n < fuel →
      ∃ d rest, decRepAux fuel n acc = (48 + d) :: rest := by
  intro fuel
  induction fuel with
  | zero => intro n acc h; omega
  | succ fuel ih =>
    intro n acc h
    rw [decRepAux]
    by_cases h10 : n < 10
    · rw [if_pos h10]
      exact ⟨n, acc, rfl⟩
    · rw [if_neg h10]
      have hdiv : n / 10 < n := Nat.div_lt_self (by omega) (by omega)
      exact ih (n / 10) _ (by omega)

theorem gen_name_nonempty (m : Nat) : ¬c_str_isEmpty (decimalBytes m) = true := by
  obtain ⟨d, rest, h⟩ := decRepAux_head (m + 1) m [] (by omega)
  unfold decimalBytes
  rw [h]
  simp [c_str_isEmpty]

/-- C4: a workspace-add or workspace-rename line whose name argument (a
NUL-free byte string, as every C string is) contains a truncated or
otherwise invalid %XX escape is answered with an ERROR line and has no
effect at all: the server state and the subscription flag are unchanged
and there is neither a persistence write nor a broadcast event. -/
theorem bad_escape_no_effect (cl : Client) (line0 : List Nat)
    (hcmd : ipc_dispatch (string_strip line0) = Cmd.wsAdd ∨
      ipc_dispatch (string_strip line0) = Cmd.wsRename)
    (n : List Nat)
    (hname : (parse_kv_args ((tokens (string_strip line0)).drop 1)).1 = some n)
    (hnul : 0 ∉ n)
    (hdec : ipc_pct_decode n = none) :
    (handle_command cl line0).1 = cl ∧
    (handle_command cl line0).2.2 = [] ∧
    ∃ msg, (handle_command cl line0).2.1 = Reply.msg msg ∧
      msg.take 5 = bs "ERROR" := by
  have hne : n ≠ [] := by
    intro h
    subst h
    simp [ipc_pct_decode] at hdec
  have hempty : ¬c_str_isEmpty n = true := by
    cases n with
    | nil => exact absurd rfl hne
    | cons b t =>
      have hb : b ≠ 0 := fun h => hnul (h ▸ List.mem_cons_self b t)
      simp [c_str_isEmpty, hb]
  unfold handle_command
  dsimp only
  rcases hcmd with hcmd | hcmd
  · rw [hcmd]
    dsimp only
    rw [hname]
    dsimp only
    rw [if_neg hempty, hdec]
    exact ⟨rfl, rfl, _, rfl, by decide⟩
  · rw [hcmd]
    dsimp only
    rw [hname]
    dsimp only
    by_cases hcond : (parse_kv_args ((tokens (string_strip line0)).drop 1)).2 < 1 ∨
        c_str_isEmpty n = true
    · rw [if_pos hcond]
      exact ⟨rfl, rfl, _, rfl, by decide⟩
    · rw [if_neg hcond, hdec]
      exact ⟨rfl, rfl, _, rfl, by decide⟩

/-- Witness for C4: "workspace-add name=%zz" errors out without effect. -/
theorem bad_escape_no_effect_witness :
    (handle_command ⟨workspaces_init.1, false⟩ (bs "workspace-add name=%zz")).1
      = ⟨workspaces_init.1, false⟩ ∧
    (handle_command ⟨workspaces_init.1, false⟩ (bs "workspace-add name=%zz")).2.2 = [] ∧
    ∃ msg, (handle_command ⟨workspaces_init.1, false⟩
        (bs "workspace-add name=%zz")).2.1 = Reply.msg msg ∧
      msg.take 5 = bs "ERROR" :=
  bad_escape_no_effect ⟨workspaces_init.1, false⟩ (bs "workspace-add name=%zz")
    (Or.inl (by decide)) (bs "%zz") (by decide) (by decide) (by decide)

/-! ### C8: workspace-add with an empty or absent name -/

/-- C8: a workspace-add command with an absent or empty name appends a
workspace named `decimal(previous_size + 1)` at the registry tail and
replies OK; every successful add (generated or explicit name) appends at
the end, persists the name list and broadcasts one
`workspace-list-changed` event; synthesized names are not deduplicated
across add/remove cycles (after add, remove index=1, add, the registry
holds the name "2" twice). -/
theorem workspace_add_spec :
    (∀ (cl : Client) (line0 : List Nat),
      ipc_dispatch (string_strip line0) = Cmd.wsAdd →
      ((parse_kv_args ((tokens (string_strip line0)).drop 1)).1 = none ∨
        (∃ n, (parse_kv_args ((tokens (string_strip line0)).drop 1)).1 = some n ∧
          c_str_isEmpty n = true)) →
      handle_command cl line0
        = ({ cl with server :=
              add_workspace cl.server (decimalBytes (cl.server.all.length + 1)) },
           Reply.msg (bs "OK\n"),
           [Effect.persist (server_names
              (add_workspace cl.server (decimalBytes (cl.server.all.length + 1)))),
            Effect.event (list_changed_event
              (add_workspace cl.server (decimalBytes (cl.server.all.length + 1))))])) ∧
    (∀ (s : Server) (name : List Nat),
      (workspaces_add_named s name).2.1 = true →
      (workspaces_add_named s name).1.all = s.all ++ [⟨s.nextId, name⟩] ∧
      (workspaces_add_named s name).2.2
        = [Effect.persist (server_names (add_workspace s name)),
           Effect.event (list_changed_event (add_workspace s name))]) ∧
    server_names ((handle_command ((handle_command ((handle_command
        ⟨workspaces_init.1, false⟩ (bs "workspace-add")).1)
        (bs "workspace-remove index=1")).1) (bs "workspace-add")).1).server
      = [bs "2", bs "2"] := by
  refine ⟨?_, ?_, by decide⟩
  · intro cl line0 hcmd hgen
    unfold handle_command
    dsimp only
    rw [hcmd]
    dsimp only
    rcases hgen with hnone | ⟨n, hsome, hempty⟩
    · rw [hnone]
      dsimp only
      unfold handle_ws_add_generated workspaces_add_named
      dsimp only
      rw [if_neg (gen_name_nonempty _)]
      rfl
    · rw [hsome]
      dsimp only
      rw [if_pos hempty]
      unfold handle_ws_add_generated workspaces_add_named
      dsimp only
      rw [if_neg (gen_name_nonempty _)]
      rfl
  · intro s name hsucc
    by_cases hempty : c_str_isEmpty name = true
    · rw [show workspaces_add_named s name = (s, false, [])
          from by unfold workspaces_add_named; rw [if_pos hempty]] at hsucc
      exact absurd hsucc Bool.false_ne_true
    · rw [show workspaces_add_named s name
          = (add_workspace s name, true,
             [Effect.persist (server_names (add_workspace s name)),
              Effect.event (list_changed_event (add_workspace s name))])
          from by unfold workspaces_add_named; rw [if_neg hempty]]
      exact ⟨rfl, rfl⟩

/-- Witness for C8: "workspace-add" with no argument on the fresh
registry appends the synthesized name "2". -/
theorem workspace_add_spec_witness :
    handle_command ⟨workspaces_init.1, false⟩ (bs "workspace-add")
      = (⟨add_workspace workspaces_init.1
            (decimalBytes (workspaces_init.1.all.length + 1)), false⟩,
         Reply.msg (bs "OK\n"),
         [Effect.persist (server_names (add_workspace workspaces_init.1
            (decimalBytes (workspaces_init.1.all.length + 1)))),
          Effect.event (list_changed_event (add_workspace workspaces_init.1
            (decimalBytes (workspaces_init.1.all.length + 1))))]) :=
  workspace_add_spec.1 ⟨workspaces_init.1, false⟩ (bs "workspace-add")
    (by decide) (Or.inl (by decide))

end Sartwc
